import Mathlib

/-!
Verification of the ABAC policy engine core: the `PolicyManager`
(policy-manager module), the shared zod schema layer, and the `AuthEngine`
condition evaluator (engine module).

Modelling conventions:
* JS primitive attribute values are `Prim` (string, number, boolean); the
  numeric carrier is `Int` (the source uses a single JS number type and the
  specified properties do not depend on float rounding).
* A JS object of attributes is an association list; `attributes[key]`
  returning `undefined` is `List.lookup` returning `none`.
* A method that returns a boolean or throws `InvalidOperandError` is a
  function into `Except EvalErr Bool`.
* The recursive `evaluate` of the engine is not structurally recursive in
  the source (its `not` arm recurses on the unchanged node), so it is
  embedded with explicit fuel: `none` means the call depth exceeded the
  fuel, i.e. the source diverges (stack overflow).
-/

namespace AuthEngine

/-- A JS primitive value as admitted by the attribute schema. -/
inductive Prim
  | pstr (s : String)
  | pnum (n : Int)
  | pbool (b : Bool)
deriving DecidableEq, Repr

/-- The result of JS `typeof` on a `Prim`. -/
inductive PrimType
  | tstr
  | tnum
  | tbool
deriving DecidableEq, Repr

/-- `typeof value` for a primitive. -/
def typeofPrim : Prim → PrimType
  | .pstr _ => .tstr
  | .pnum _ => .tnum
  | .pbool _ => .tbool

/-- JS strict equality `===` on the primitives admitted here: same type and
same value; cross-type strict equality is `false`. -/
def strictEq : Prim → Prim → Bool
  | .pstr a, .pstr b => a == b
  | .pnum a, .pnum b => a == b
  | .pbool a, .pbool b => a == b
  | _, _ => false

/-- An attribute value: primitive, array of strings, or array of numbers
(`z.union([z.string(), z.number(), z.boolean(), z.string().array(),
z.number().array()])`; boolean arrays are excluded). -/
inductive AttrValue
  | prim (p : Prim)
  | strArr (l : List String)
  | numArr (l : List Int)
deriving DecidableEq, Repr

/-- `attributeSchema = z.record(primitive)`: a JS object mapping attribute
names to values, embedded as an association list. -/
abbrev Attributes := List (String × AttrValue)

/-- `Resource` of the policy-manager module: `{ id, type, attributes }`.
The subject of an authorization query is itself a `Resource`. -/
structure Resource where
  id : String
  type : String
  attributes : Attributes
deriving DecidableEq, Repr

/-- `actions = z.enum(['read', 'create', 'update', 'delete'])`. -/
inductive Action
  | read
  | create
  | update
  | delete
deriving DecidableEq, Repr

def Action.toStr : Action → String
  | .read => "read"
  | .create => "create"
  | .update => "update"
  | .delete => "delete"

/-- `compareSource = z.enum(['subject', 'resource'])`. -/
inductive Source
  | subject
  | resource
deriving DecidableEq, Repr

/-- The two comparators of `equalityOperators` (`eq`, `ne`). -/
inductive EqOp
  | eq
  | ne
deriving DecidableEq, Repr

/-- The four comparators of `numericOperators`. -/
inductive NumOp
  | gt
  | gte
  | lt
  | lte
deriving DecidableEq, Repr

/-- The two comparators of `collectionOperators` (`in`, `nin`). -/
inductive CollOp
  | inOp
  | ninOp
deriving DecidableEq, Repr

/-- The errors the evaluator can throw: `InvalidOperandError` for runtime
type mismatches, and the `throw new Error('Why are you here? ...')`
branches (dead code for schema-conformant inputs). -/
inductive EvalErr
  | invalidOperand
  | internal
deriving DecidableEq, Repr

/-- A reference array of an `in`/`nin` condition:
`z.union([z.string().array(), z.number().array()])`. -/
inductive CollArr
  | strs (l : List String)
  | nums (l : List Int)
deriving DecidableEq, Repr

/-- `referenceValue.find((item) => typeof item === typeof value) !== undefined`. -/
def collFindSameType : CollArr → Prim → Bool
  | .strs l, v => l.any (fun _ => typeofPrim v == .tstr)
  | .nums l, v => l.any (fun _ => typeofPrim v == .tnum)

/-- `referenceValue.find((item) => item === value) !== undefined`. -/
def collIncludes : CollArr → Prim → Bool
  | .strs l, v => l.any (fun s => strictEq (.pstr s) v)
  | .nums l, v => l.any (fun n => strictEq (.pnum n) v)

/-- The operator together with its `referenceValue`, in the three pairings
the `attributeConditionSchema` union admits (`eq|ne` with a primitive,
`gt|gte|lt|lte` with a number, `in|nin` with a homogeneous array). -/
inductive CmpSpec
  | eqC (o : EqOp) (ref : Prim)
  | numC (o : NumOp) (ref : Int)
  | collC (o : CollOp) (ref : CollArr)
deriving DecidableEq, Repr

/-- `AuthEngine.compareNumbers`. -/
def compareNumbers : NumOp → Int → Int → Bool
  | .gt, left, right => decide (right < left)
  | .gte, left, right => decide (right ≤ left)
  | .lt, left, right => decide (left < right)
  | .lte, left, right => decide (left ≤ right)

/-- `AuthEngine.evaluateAttributeCondition(condition, value)`: compare a
resolved primitive against the condition's `referenceValue`.
* `eq|ne`: requires `typeof value === typeof referenceValue`, else
  `InvalidOperandError`; then strict (in)equality.
* `gt|gte|lt|lte`: requires `typeof value === 'number'`, else error.
* `in|nin`: requires the value not boolean and some array element sharing
  its `typeof`, else error; then array membership by strict equality. -/
def evaluateAttributeCondition : CmpSpec → Prim → Except EvalErr Bool
  | .eqC o ref, v =>
    if typeofPrim v == typeofPrim ref then
      .ok (match o with
        | .eq => strictEq v ref
        | .ne => !(strictEq v ref))
    else
      .error .invalidOperand
  | .numC o ref, v =>
    match v with
    | .pnum n => .ok (compareNumbers o n ref)
    | _ => .error .invalidOperand
  | .collC o ref, v =>
    if !(typeofPrim v == .tbool) && collFindSameType ref v then
      .ok (match o with
        | .inOp => collIncludes ref v
        | .ninOp => !(collIncludes ref v))
    else
      .error .invalidOperand

/-- `AuthEngine.getDynamicKey`: `str.slice(1)` drops the leading `$`. -/
def getDynamicKey (str : String) : String := str.drop 1

/-- An `attributeConditionSchema` condition: dynamic `attributeKey`, the
operator/reference pairing, and an optional `compareSource`. -/
structure AttrCondition where
  attributeKey : String
  spec : CmpSpec
  compareSource : Option Source
deriving DecidableEq, Repr

/-- A present attribute value fed to `evaluateAttributeCondition`: an array
where a primitive is required throws `InvalidOperandError` first. -/
def evalPresent (spec : CmpSpec) (v : AttrValue) : Except EvalErr Bool :=
  match v with
  | .prim p => evaluateAttributeCondition spec p
  | _ => .error .invalidOperand

/-- The two-sided branch of `resolveAttributeCondition` (no
`compareSource`, both values present): arrays throw, otherwise
`resourceEval` is computed, then `subjectEval`, and the result is their
conjunction. -/
def twoSidedEval (spec : CmpSpec) (sv rv : AttrValue) : Except EvalErr Bool :=
  match sv, rv with
  | .prim ps, .prim pr =>
    match evaluateAttributeCondition spec pr with
    | .error e => .error e
    | .ok resourceEval =>
      match evaluateAttributeCondition spec ps with
      | .error e => .error e
      | .ok subjectEval => .ok (resourceEval && subjectEval)
  | _, _ => .error .invalidOperand

/-- `AuthEngine.resolveAttributeCondition(subject, resource, condition)`:
source selection, missing-value handling, then comparison. The match arms
mirror the source's cascade:
1. `compareSource === 'subject'` and the subject value present;
2. `compareSource === 'resource'` and the resource value present;
3. either value absent: `false`;
4. both present: two-sided conjunction. -/
def resolveAttributeCondition (s r : Resource) (c : AttrCondition) :
    Except EvalErr Bool :=
  let key := getDynamicKey c.attributeKey
  let resourceValue := r.attributes.lookup key
  let subjectValue := s.attributes.lookup key
  match c.compareSource, subjectValue, resourceValue with
  | some .subject, some sv, _ => evalPresent c.spec sv
  | some .resource, _, some rv => evalPresent c.spec rv
  | _, none, _ => .ok false
  | _, _, none => .ok false
  | _, some sv, some rv => twoSidedEval c.spec sv rv

/-- The operator of an `entityKeyPrimitiveConditionSchema` condition:
`comparators.extract(['eq', 'ne', 'gt', 'lt', 'gte', 'lte'])`. -/
inductive EntityPrimOp
  | eq
  | ne
  | gt
  | gte
  | lt
  | lte
deriving DecidableEq, Repr

/-- `equalityOperators.safeParse(operator)`. -/
def EntityPrimOp.asEq : EntityPrimOp → Option EqOp
  | .eq => some .eq
  | .ne => some .ne
  | _ => none

/-- `numericOperators.safeParse(operator)`. -/
def EntityPrimOp.asNum : EntityPrimOp → Option NumOp
  | .gt => some .gt
  | .gte => some .gte
  | .lt => some .lt
  | .lte => some .lte
  | _ => none

/-- `entityKeyConditionSchema`: the primitive form (`subjectKey`,
`resourceKey`) or the collection form (`targetKey`, `collectionKey`,
`collectionSource`, with an `in|nin` operator). -/
inductive EntityCondition
  | primC (subjectKey resourceKey : String) (op : EntityPrimOp)
  | collC (targetKey collectionKey : String) (op : CollOp)
      (collectionSource : Source)
deriving DecidableEq, Repr

/-- `Array.isArray` interpretation of an attribute value. -/
def collArrOfValue : AttrValue → Option CollArr
  | .strArr l => some (.strs l)
  | .numArr l => some (.nums l)
  | .prim _ => none

/-- `AuthEngine.evaluateEntityKeyCondition`. Collection form: the
collection is read from `subject[targetKey]` when `collectionSource =
'subject'` (else `resource[collectionKey]`), the target symmetrically from
the other entity; absent values give `false`; an array target or a
primitive collection throws; then `in|nin` membership. Primitive form:
absent values give `false`; arrays throw; a `typeof` mismatch throws;
`eq|ne` compare strictly and `gt|gte|lt|lte` require numbers. -/
def evaluateEntityKeyCondition (s r : Resource) (c : EntityCondition) :
    Except EvalErr Bool :=
  match c with
  | .collC tKey cKey op src =>
    let collectionKey := getDynamicKey cKey
    let targetKey := getDynamicKey tKey
    let collectionValue :=
      if src == Source.subject then s.attributes.lookup targetKey
      else r.attributes.lookup collectionKey
    let targetValue :=
      if src == Source.subject then r.attributes.lookup collectionKey
      else s.attributes.lookup targetKey
    match collectionValue, targetValue with
    | none, _ => .ok false
    | _, none => .ok false
    | some cv, some tv =>
      match tv with
      | .prim tp =>
        match collArrOfValue cv with
        | some arr => evaluateAttributeCondition (.collC op arr) tp
        | none => .error .invalidOperand
      | _ => .error .invalidOperand
  | .primC sKey rKey op =>
    let subjectKey := getDynamicKey sKey
    let resourceKey := getDynamicKey rKey
    let subjectValue := s.attributes.lookup subjectKey
    let resourceValue := r.attributes.lookup resourceKey
    match resourceValue, subjectValue with
    | none, _ => .ok false
    | _, none => .ok false
    | some rv, some sv =>
      match sv, rv with
      | .prim ps, .prim pr =>
        if typeofPrim ps == typeofPrim pr then
          match op.asEq with
          | some eo => evaluateAttributeCondition (.eqC eo pr) ps
          | none =>
            match op.asNum with
            | some no =>
              match ps, pr with
              | .pnum ns, .pnum nr =>
                evaluateAttributeCondition (.numC no nr) (.pnum ns)
              | _, _ => .error .invalidOperand
            | none => .error .internal
        else
          .error .invalidOperand
      | _, _ => .error .invalidOperand

/-- The `Condition` sum of the shared schema: attribute conditions,
entity-key conditions, and the logical connectives. `and|or` carry
`z.array(conditionSchema)` (any length, the schema imposes no lower
bound), `not` carries a single child. -/
inductive Condition
  | attrC (c : AttrCondition)
  | entC (c : EntityCondition)
  | andC (conditions : List Condition)
  | orC (conditions : List Condition)
  | notC (child : Condition)
deriving Repr

/-- `conditions.every((c) => this.evaluate(...))`: left-to-right, stopping
at the first `false`, with thrown errors (and fuel exhaustion)
propagating. -/
def andLoop (eval1 : Condition → Option (Except EvalErr Bool)) :
    List Condition → Option (Except EvalErr Bool)
  | [] => some (.ok true)
  | c :: cs =>
    match eval1 c with
    | none => none
    | some (.error e) => some (.error e)
    | some (.ok false) => some (.ok false)
    | some (.ok true) => andLoop eval1 cs

/-- `conditions.some((c) => this.evaluate(...))`: left-to-right, stopping
at the first `true`. -/
def orLoop (eval1 : Condition → Option (Except EvalErr Bool)) :
    List Condition → Option (Except EvalErr Bool)
  | [] => some (.ok false)
  | c :: cs =>
    match eval1 c with
    | none => none
    | some (.error e) => some (.error e)
    | some (.ok true) => some (.ok true)
    | some (.ok false) => orLoop eval1 cs

/-- `AuthEngine.evaluate(subject, resource, condition)` with explicit call
depth (fuel); `none` models the source diverging (its `not` arm invokes
`this.evaluate(subject, resource, logicalCondition)` on the unchanged
node, not on the child). The schema dispatch (`safeParse` of the attribute,
entity-key and logical schemas in that order) is a total pattern match on
the typed condition. -/
def evaluate : Nat → Resource → Resource → Condition →
    Option (Except EvalErr Bool)
  | 0, _, _, _ => none
  | f + 1, s, r, c =>
    match c with
    | .attrC ac => some (resolveAttributeCondition s r ac)
    | .entC ec => some (evaluateEntityKeyCondition s r ec)
    | .andC cs => andLoop (evaluate f s r) cs
    | .orC cs => orLoop (evaluate f s r) cs
    | .notC child =>
      match evaluate f s r (.notC child) with
      | none => none
      | some (.error e) => some (.error e)
      | some (.ok b) => some (.ok (!b))

/-- `Policy`: `{ action, resource, conditions? }`. -/
structure Policy where
  action : Action
  resource : String
  conditions : Option Condition
deriving Repr

/-- The policy index `Map<PolicyKey, Policy[]>` as an insertion-ordered
association list with unique keys. -/
abbrev PolicyStore := List (String × List Policy)

/-- `AuthEngine.getPolicyKey`: the template string `type:action`. -/
def getPolicyKey (r : Resource) (a : Action) : String :=
  r.type ++ ":" ++ a.toStr

/-- `AuthEngine.abac`: a policy without `conditions` grants outright,
otherwise its condition tree is evaluated. -/
def abac (f : Nat) (s r : Resource) (p : Policy) :
    Option (Except EvalErr Bool) :=
  match p.conditions with
  | none => some (.ok true)
  | some c => evaluate f s r c

/-- The `for (const policy of relevantPolicies)` loop of `isAuthorized`:
first granting policy wins, errors propagate, exhausted list gives
`false`. -/
def authLoop (f : Nat) (s r : Resource) :
    List Policy → Option (Except EvalErr Bool)
  | [] => some (.ok false)
  | p :: ps =>
    match abac f s r p with
    | none => none
    | some (.error e) => some (.error e)
    | some (.ok true) => some (.ok true)
    | some (.ok false) => authLoop f s r ps

/-- `AuthEngine.isAuthorized(subject, resource, action)`:
`this.policies.get(policyKey) || []`, then the policy loop. -/
def isAuthorized (f : Nat) (store : PolicyStore) (s r : Resource)
    (a : Action) : Option (Except EvalErr Bool) :=
  let relevantPolicies := (store.lookup (getPolicyKey r a)).getD []
  authLoop f s r relevantPolicies

/-! ### The schema layer and `PolicyManager` -/

/-- `dynamicKey = z.string().min(2).regex(/^\$.+/)`: at least two
characters, starting with `$`. -/
def isDynamicKey (k : String) : Bool :=
  decide (2 ≤ k.length) && k.startsWith "$"

mutual

/-- `conditionSchema` validation of a condition tree: every dynamic key
must satisfy `isDynamicKey`; the operator/reference pairings are enforced
by the typed representation; `and|or` lists carry no length requirement. -/
def validateCondition : Condition → Bool
  | .attrC c => isDynamicKey c.attributeKey
  | .entC (.primC sk rk _) => isDynamicKey sk && isDynamicKey rk
  | .entC (.collC tk ck _ _) => isDynamicKey tk && isDynamicKey ck
  | .andC cs => validateConditionList cs
  | .orC cs => validateConditionList cs
  | .notC child => validateCondition child

/-- Validation of the `z.array(z.lazy(() => conditionSchema))` children of
an `and|or` node. -/
def validateConditionList : List Condition → Bool
  | [] => true
  | c :: cs => validateCondition c && validateConditionList cs

end

/-- `SchemaError`: a `zod` validation failure thrown by
`policySchema.parse`. -/
inductive SchemaError
  | schemaError
deriving DecidableEq, Repr

/-- `PolicyManager`: the resource-type universe fixed at construction and
the policy index. -/
structure PolicyManager where
  resourcesTypes : List String
  policies : PolicyStore
deriving Repr

/-- The `PolicyManager` constructor: it stores the universe and builds the
validators; no runtime check of the universe is performed (non-emptiness
is only a TypeScript type-level constraint, duplicates are never
checked). -/
def PolicyManager.make (resourcesTypes : List String) : PolicyManager :=
  { resourcesTypes := resourcesTypes, policies := [] }

/-- `PolicyManager.validatePolicy` / `createPolicySchema`: the `action` and
field shapes are enforced by typing; `resource` must parse under
`z.enum(this.resourcesTypes)`; the optional `conditions` must satisfy
`conditionSchema`. -/
def validatePolicy (pm : PolicyManager) (p : Policy) : Bool :=
  pm.resourcesTypes.contains p.resource &&
    (match p.conditions with
      | none => true
      | some c => validateCondition c)

/-- Appending a policy under its key in the index: `if (!has(key)) set(key,
[]); get(key)!.push(policy)`. -/
def insertPolicy (store : PolicyStore) (key : String) (p : Policy) :
    PolicyStore :=
  if (store.lookup key).isSome then
    store.map (fun kv => if kv.1 == key then (kv.1, kv.2 ++ [p]) else kv)
  else
    store ++ [(key, [p])]

/-- `PolicyManager.addPolicy`: validation happens before any mutation, so
the returned pair is the state after the call together with the thrown
`SchemaError`, if any. -/
def addPolicy (pm : PolicyManager) (p : Policy) :
    PolicyManager × Option SchemaError :=
  if validatePolicy pm p then
    ({ pm with
        policies :=
          insertPolicy pm.policies (p.resource ++ ":" ++ p.action.toStr) p },
      none)
  else
    (pm, some .schemaError)

/-- `PolicyManager.addPolicies`: a sequential `for` loop of `addPolicy`; a
thrown error stops the loop with the mutations made so far kept. -/
def addPolicies (pm : PolicyManager) :
    List Policy → PolicyManager × Option SchemaError
  | [] => (pm, none)
  | p :: ps =>
    match addPolicy pm p with
    | (pmNext, none) => addPolicies pmNext ps
    | (pmNext, some e) => (pmNext, some e)

/-! ### Specification-side helpers

`collMembership` restates the collection-form membership check of
`evaluateEntityKeyCondition` as a function of the two already-selected
values, so that the source-to-value selection rule can be stated as an
equation. -/

/-- Membership semantics applied to a chosen collection value and a chosen
target value: absent values give `false`; an array target or a primitive
collection throws `InvalidOperandError`; otherwise `in`/`nin` membership
by strict equality. -/
def collMembership (collection target : Option AttrValue) (op : CollOp) :
    Except EvalErr Bool :=
  match collection, target with
  | none, _ => .ok false
  | _, none => .ok false
  | some cv, some tv =>
    match tv with
    | .prim tp =>
      match collArrOfValue cv with
      | some arr => evaluateAttributeCondition (.collC op arr) tp
      | none => .error .invalidOperand
    | _ => .error .invalidOperand

/-! ### Concrete fixtures used by witnesses and counterexamples -/

/-- A policy whose condition raises on `cexSubject`: `gt 5` against a
string attribute, `compareSource: subject`. -/
def cexBadPolicy : Policy :=
  ⟨.read, "file", some (.attrC ⟨"$level", .numC .gt 5, some .subject⟩)⟩

/-- An unconditional `file:read` policy. -/
def cexFreePolicy : Policy := ⟨.read, "file", none⟩

/-- An index whose `file:read` entry holds the raising policy before the
unconditional one. -/
def cexStore : PolicyStore := [("file:read", [cexBadPolicy, cexFreePolicy])]

def cexSubject : Resource := ⟨"u1", "user", [("level", .prim (.pstr "seven"))]⟩

def cexResource : Resource := ⟨"f1", "file", []⟩

/-- An index holding only the unconditional `file:read` policy. -/
def witStore : PolicyStore := [("file:read", [cexFreePolicy])]

/-- Scenario S3: the membership policy for `task:read`. -/
def s3Policy : Policy :=
  ⟨.read, "task", some (.entC (.collC "$projects" "$projectId" .inOp .subject))⟩

def s3Store : PolicyStore := [("task:read", [s3Policy])]

def s3Subject : Resource := ⟨"u1", "user", [("projects", .strArr ["p1"])]⟩

def s3SubjectNoProjects : Resource := ⟨"u2", "user", []⟩

def s3Resource : Resource := ⟨"t1", "task", [("projectId", .prim (.pstr "p1"))]⟩

/-- A condition that evaluates to `true` on `negSubject`: `role = 'admin'`
with `compareSource: subject`. -/
def negChild : Condition :=
  .attrC ⟨"$role", .eqC .eq (.pstr "admin"), some .subject⟩

def negSubject : Resource := ⟨"u1", "user", [("role", .prim (.pstr "admin"))]⟩

def negResource : Resource := ⟨"f1", "file", []⟩

/-- Scenario S7 condition: two-sided `department = 'eng'`. -/
def s7Condition : AttrCondition := ⟨"$department", .eqC .eq (.pstr "eng"), none⟩

def s7Subject : Resource :=
  ⟨"u1", "user", [("department", .prim (.pstr "eng"))]⟩

def s7Resource : Resource :=
  ⟨"d1", "document", [("department", .prim (.pstr "eng"))]⟩

mutual

/-- Whether a condition tree contains (anywhere, the root included) an
`and` or `or` node whose conditions list is empty. -/
def containsEmptyLogical : Condition → Bool
  | .attrC _ => false
  | .entC _ => false
  | .andC cs => cs.isEmpty || containsEmptyLogicalList cs
  | .orC cs => cs.isEmpty || containsEmptyLogicalList cs
  | .notC child => containsEmptyLogical child

/-- List companion of `containsEmptyLogical`. -/
def containsEmptyLogicalList : List Condition → Bool
  | [] => false
  | c :: cs => containsEmptyLogical c || containsEmptyLogicalList cs

end

mutual

/-- Validity of every dynamic key occurring in a condition tree — by
construction independent of the lengths of `and|or` children lists. -/
def allKeysValid : Condition → Bool
  | .attrC c => isDynamicKey c.attributeKey
  | .entC (.primC sk rk _) => isDynamicKey sk && isDynamicKey rk
  | .entC (.collC tk ck _ _) => isDynamicKey tk && isDynamicKey ck
  | .andC cs => allKeysValidList cs
  | .orC cs => allKeysValidList cs
  | .notC child => allKeysValid child

/-- List companion of `allKeysValid`. -/
def allKeysValidList : List Condition → Bool
  | [] => true
  | c :: cs => allKeysValid c && allKeysValidList cs

end

/-- A fresh manager over the universe `["file"]`. -/
def pm7 : PolicyManager := PolicyManager.make ["file"]

/-- A policy whose condition tree is the empty `and`. -/
def p7 : Policy := ⟨.read, "file", some (.andC [])⟩

/-- A policy whose condition tree contains an empty `or` nested below a
non-empty `and`. -/
def p7nested : Policy := ⟨.read, "file", some (.andC [.orC []])⟩

def pm8 : PolicyManager := PolicyManager.make ["file"]

def goodPolicy8 : Policy := ⟨.read, "file", none⟩

/-- A policy rejected by validation: its `resource` is outside the
universe `["file"]`. -/
def badPolicy8 : Policy := ⟨.read, "task", none⟩

def goodPolicy8b : Policy := ⟨.update, "file", none⟩

def pm10 : PolicyManager := PolicyManager.make ["file"]

def p10 : Policy := ⟨.read, "file", some (.andC [])⟩

def store10 : PolicyStore := [("file:read", [p10])]

/-! ### Shared lemmas -/

/-- The `not` arm of `evaluateLogicalCondition` re-evaluates the unchanged
node, so a `not` condition consumes all fuel: for every call-depth bound
the evaluation is still running. -/
theorem evaluate_notC_none (f : Nat) (s r : Resource) (c : Condition) :
    evaluate f s r (Condition.notC c) = none := by
  induction f with
  | zero => rfl
  | succ f ih => simp [evaluate, ih]

/-- Strict equality on primitives decides propositional equality. -/
theorem strictEq_iff (v w : Prim) : strictEq v w = true ↔ v = w := by
  cases v <;> cases w <;> simp [strictEq]

theorem strictEq_eq_decide (v w : Prim) : strictEq v w = decide (v = w) := by
  rw [Bool.eq_iff_iff, strictEq_iff, decide_eq_true_eq]

/-- `addPolicy` validates before mutating: a thrown `SchemaError` leaves
the manager unchanged. -/
theorem addPolicy_error_state (pm : PolicyManager) (p : Policy)
    (e : SchemaError) (h : (addPolicy pm p).2 = some e) :
    (addPolicy pm p).1 = pm := by
  by_cases hv : validatePolicy pm p = true
  · simp [addPolicy, hv] at h
  · simp [addPolicy, hv]

mutual

/-- `conditionSchema` validation checks exactly the dynamic keys of the
tree: it never inspects the length of an `and|or` children list. -/
theorem validate_eq_keys : ∀ c : Condition,
    validateCondition c = allKeysValid c
  | .attrC _ => rfl
  | .entC (.primC _ _ _) => rfl
  | .entC (.collC _ _ _ _) => rfl
  | .andC cs => by
    simp only [validateCondition, allKeysValid]
    exact validateList_eq_keys cs
  | .orC cs => by
    simp only [validateCondition, allKeysValid]
    exact validateList_eq_keys cs
  | .notC child => by
    simp only [validateCondition, allKeysValid]
    exact validate_eq_keys child

/-- List companion of `validate_eq_keys`. -/
theorem validateList_eq_keys : ∀ cs : List Condition,
    validateConditionList cs = allKeysValidList cs
  | [] => rfl
  | c :: cs => by
    simp only [validateConditionList, allKeysValidList]
    rw [validate_eq_keys c, validateList_eq_keys cs]

end

/-- The policy loop returns `ok true` exactly when some policy's `abac`
returns `ok true`, provided every `abac` in the list returns a boolean. -/
theorem authLoop_ok_true_iff (f : Nat) (s r : Resource) (ps : List Policy)
    (h : ∀ p ∈ ps, ∃ b, abac f s r p = some (Except.ok b)) :
    authLoop f s r ps = some (Except.ok true) ↔
      ∃ p ∈ ps, abac f s r p = some (Except.ok true) := by
  induction ps with
  | nil => simp [authLoop]
  | cons p ps ih =>
    obtain ⟨b, hb⟩ := h p (List.mem_cons_self p ps)
    have hrest : ∀ q ∈ ps, ∃ b, abac f s r q = some (Except.ok b) :=
      fun q hq => h q (List.mem_cons_of_mem p hq)
    cases b with
    | true => simp [authLoop, hb]
    | false => simp [authLoop, hb, ih hrest]

/-! ### Claims -/

/-- C3: for every subject, resource, and condition whose root is the `not`
operator, the evaluator never returns: at every call-depth bound `f` the
call is still running (`none`), so `evaluate` neither returns a boolean
nor raises `InvalidOperandError` on `not` nodes. This contradicts the
claim that evaluation terminates on every schema-validated condition; the
`not` arm of the source recurses on the whole node instead of its child. -/
theorem evaluate_not_diverges (f : Nat) (s r : Resource) (c : Condition) :
    evaluate f s r (Condition.notC c) = none :=
  evaluate_notC_none f s r c

/-- C4: the child condition `negChild` evaluates to `ok true` in one step,
yet wrapping it in the `not` operator yields no result at any call depth —
so evaluating `{operator: not, conditions: c}` is not the boolean negation
of evaluating `c` (the source's `not` arm loops on the unchanged node). -/
theorem not_negation_unmet :
    evaluate 1 negSubject negResource negChild = some (Except.ok true) ∧
    ∀ f : Nat,
      evaluate f negSubject negResource (Condition.notC negChild) = none :=
  ⟨rfl, fun f => evaluate_notC_none f negSubject negResource negChild⟩

/-- C2: in the collection form of an entity-key condition with
`collectionSource = subject`, the collection is read from the subject's
attributes under the resolved `targetKey` and the target from the
resource's attributes under the resolved `collectionKey`; symmetrically
for `collectionSource = resource`. Consequently the S3 policy grants
`read` to a subject with `projects: ["p1"]` against a resource with
`projectId: "p1"`, and a subject lacking `projects` yields `false` without
an error. -/
theorem collection_source_mapping :
    (∀ (s r : Resource) (tk ck : String) (op : CollOp),
        evaluateEntityKeyCondition s r (EntityCondition.collC tk ck op .subject) =
          collMembership (s.attributes.lookup (getDynamicKey tk))
            (r.attributes.lookup (getDynamicKey ck)) op) ∧
    (∀ (s r : Resource) (tk ck : String) (op : CollOp),
        evaluateEntityKeyCondition s r (EntityCondition.collC tk ck op .resource) =
          collMembership (r.attributes.lookup (getDynamicKey ck))
            (s.attributes.lookup (getDynamicKey tk)) op) ∧
    isAuthorized 2 s3Store s3Subject s3Resource Action.read =
      some (Except.ok true) ∧
    isAuthorized 2 s3Store s3SubjectNoProjects s3Resource Action.read =
      some (Except.ok false) :=
  ⟨fun _ _ _ _ _ => rfl, fun _ _ _ _ _ => rfl, rfl, rfl⟩

/-- C1 (counterexample): with the `file:read` index entry holding a policy
whose evaluation raises `InvalidOperandError` before an unconditional
policy, `is_authorized` raises instead of returning `true`, although a
policy with absent conditions is in the entry — the claimed equivalence
fails as stated. -/
theorem isAuthorized_grant_iff_cex :
    ¬ (isAuthorized 2 cexStore cexSubject cexResource Action.read =
          some (Except.ok true) ↔
        ∃ p ∈ (cexStore.lookup
            (getPolicyKey cexResource Action.read)).getD [],
          p.conditions = none ∨
          ∃ c, p.conditions = some c ∧
            evaluate 2 cexSubject cexResource c = some (Except.ok true)) := by
  intro hIff
  have hlist : (cexStore.lookup
      (getPolicyKey cexResource Action.read)).getD [] =
      [cexBadPolicy, cexFreePolicy] := rfl
  have hRhs : ∃ p ∈ (cexStore.lookup
      (getPolicyKey cexResource Action.read)).getD [],
      p.conditions = none ∨
      ∃ c, p.conditions = some c ∧
        evaluate 2 cexSubject cexResource c = some (Except.ok true) := by
    refine ⟨cexFreePolicy, ?_, Or.inl rfl⟩
    rw [hlist]
    exact List.mem_cons_of_mem _ (List.mem_cons_self _ _)
  have hRun : isAuthorized 2 cexStore cexSubject cexResource Action.read =
      some (Except.error EvalErr.invalidOperand) := rfl
  have := hIff.mpr hRhs
  rw [hRun] at this
  exact Except.noConfusion (Option.some.inj this)

/-- C1 (amended): provided the evaluation of every policy in the relevant
index entry returns a boolean (neither raising nor diverging),
`is_authorized(s, r, a)` returns `true` iff some policy in the entry for
`r.type ++ ":" ++ a` has absent conditions or a condition evaluating to
`true`; and when the index has no entry for that key, the call returns
`false` unconditionally. -/
theorem isAuthorized_grant_iff (f : Nat) (store : PolicyStore)
    (s r : Resource) (a : Action)
    (h : ∀ p ∈ (store.lookup (getPolicyKey r a)).getD [],
        ∃ b, abac f s r p = some (Except.ok b)) :
    (isAuthorized f store s r a = some (Except.ok true) ↔
      ∃ p ∈ (store.lookup (getPolicyKey r a)).getD [],
        p.conditions = none ∨
        ∃ c, p.conditions = some c ∧
          evaluate f s r c = some (Except.ok true)) ∧
    (store.lookup (getPolicyKey r a) = none →
      isAuthorized f store s r a = some (Except.ok false)) := by
  constructor
  · rw [isAuthorized, authLoop_ok_true_iff f s r _ h]
    constructor <;> rintro ⟨p, hp, hcond⟩ <;> refine ⟨p, hp, ?_⟩
    · rcases hc : p.conditions with _ | c
      · exact Or.inl rfl
      · exact Or.inr ⟨c, rfl, by simpa [abac, hc] using hcond⟩
    · rcases hcond with hnone | ⟨c, hc, he⟩
      · simp [abac, hnone]
      · simp [abac, hc, he]
  · intro hnone
    simp [isAuthorized, hnone, authLoop]

/-- C1 (witness): the amended equivalence applied to the index holding only
the unconditional `file:read` policy. -/
theorem isAuthorized_grant_iff_wit :
    isAuthorized 1 witStore cexSubject cexResource Action.read =
      some (Except.ok true) := by
  have hlist : (witStore.lookup
      (getPolicyKey cexResource Action.read)).getD [] = [cexFreePolicy] := rfl
  refine (isAuthorized_grant_iff 1 witStore cexSubject cexResource
      Action.read ?_).1.mpr ?_
  · rw [hlist]
    intro p hp
    rw [List.mem_singleton] at hp
    exact ⟨true, by simp [hp, abac, cexFreePolicy]⟩
  · rw [hlist]
    exact ⟨cexFreePolicy, List.mem_singleton.mpr rfl, Or.inl rfl⟩

/-- C5: for an attribute condition without `compareSource`, a resolved
attribute name missing from either entity's attributes yields `false`; and
when both values are present primitives whose per-side comparisons return
booleans `bs` (subject) and `br` (resource), the result is their
conjunction. -/
theorem resolve_two_sided_semantics :
    (∀ (s r : Resource) (key : String) (spec : CmpSpec),
        (s.attributes.lookup (getDynamicKey key) = none ∨
          r.attributes.lookup (getDynamicKey key) = none) →
        resolveAttributeCondition s r ⟨key, spec, none⟩ =
          Except.ok false) ∧
    (∀ (s r : Resource) (key : String) (spec : CmpSpec) (ps pr : Prim)
        (bs br : Bool),
        s.attributes.lookup (getDynamicKey key) =
          some (AttrValue.prim ps) →
        r.attributes.lookup (getDynamicKey key) =
          some (AttrValue.prim pr) →
        evaluateAttributeCondition spec ps = Except.ok bs →
        evaluateAttributeCondition spec pr = Except.ok br →
        resolveAttributeCondition s r ⟨key, spec, none⟩ =
          Except.ok (bs && br)) := by
  constructor
  · intro s r key spec hmiss
    cases hs : s.attributes.lookup (getDynamicKey key) with
    | none =>
      cases hr : r.attributes.lookup (getDynamicKey key) with
      | none => simp [resolveAttributeCondition, hs, hr]
      | some rv => simp [resolveAttributeCondition, hs, hr]
    | some sv =>
      cases hr : r.attributes.lookup (getDynamicKey key) with
      | none => simp [resolveAttributeCondition, hs, hr]
      | some rv => simp [hs, hr] at hmiss
  · intro s r key spec ps pr bs br hs hr hps hpr
    rw [resolveAttributeCondition]
    simp only [hs, hr]
    simp [twoSidedEval, hps, hpr, Bool.and_comm]

/-- C5 (witness): the conjunction clause applied to scenario S7
(`department = 'eng'` on both sides). -/
theorem resolve_two_sided_semantics_wit :
    resolveAttributeCondition s7Subject s7Resource s7Condition =
      Except.ok true :=
  resolve_two_sided_semantics.2 s7Subject s7Resource "$department"
    (CmpSpec.eqC EqOp.eq (Prim.pstr "eng")) (Prim.pstr "eng")
    (Prim.pstr "eng") true true rfl rfl rfl rfl

/-- C6: for `eq`/`ne`, operands of different primitive types raise
`InvalidOperandError`, while operands sharing a primitive type (booleans
included) return the strict equality result for `eq` and its negation for
`ne`. -/
theorem eq_ne_type_semantics :
    (∀ (o : EqOp) (ref v : Prim), typeofPrim v ≠ typeofPrim ref →
        evaluateAttributeCondition (CmpSpec.eqC o ref) v =
          Except.error EvalErr.invalidOperand) ∧
    (∀ ref v : Prim, typeofPrim v = typeofPrim ref →
        evaluateAttributeCondition (CmpSpec.eqC EqOp.eq ref) v =
          Except.ok (decide (v = ref))) ∧
    (∀ ref v : Prim, typeofPrim v = typeofPrim ref →
        evaluateAttributeCondition (CmpSpec.eqC EqOp.ne ref) v =
          Except.ok (!decide (v = ref))) := by
  refine ⟨?_, ?_, ?_⟩
  · intro o ref v h
    simp [evaluateAttributeCondition, h]
  · intro ref v h
    simp [evaluateAttributeCondition, h, strictEq_eq_decide]
  · intro ref v h
    simp [evaluateAttributeCondition, h, strictEq_eq_decide]

/-- C6 (witness): a number compared with a string raises; two equal
booleans compare equal. -/
theorem eq_ne_type_semantics_wit :
    evaluateAttributeCondition
        (CmpSpec.eqC EqOp.eq (Prim.pnum 1)) (Prim.pstr "x") =
      Except.error EvalErr.invalidOperand ∧
    evaluateAttributeCondition
        (CmpSpec.eqC EqOp.eq (Prim.pbool true)) (Prim.pbool true) =
      Except.ok true :=
  ⟨eq_ne_type_semantics.1 EqOp.eq (Prim.pnum 1) (Prim.pstr "x") (by decide),
    eq_ne_type_semantics.2.1 (Prim.pbool true) (Prim.pbool true) rfl⟩

/-- C7 (counterexample): a policy whose condition tree is the empty `and`
is accepted by `addPolicy` on a fresh manager over `["file"]`: no
`SchemaError` is thrown and the policy is inserted — the logical-condition
schema places no lower bound on the length of `and|or` children. -/
theorem empty_and_accepted_cex :
    addPolicy pm7 p7 =
      ({ resourcesTypes := ["file"], policies := [("file:read", [p7])] },
        none) := rfl

/-- C7 (amended): schema validation checks exactly the dynamic keys of a
condition tree, never the length of an `and|or` children list; hence for
every policy whose condition tree contains — anywhere — an `and` or `or`
node with an empty conditions list, `add_policy` accepts the policy
exactly when its `resource` is in the universe and its dynamic keys are
valid, so an empty node is never a reason for rejection and no
`SchemaError` enforces the non-empty-list requirement stated by
the spec. -/
theorem empty_and_accepted :
    (∀ c : Condition, validateCondition c = allKeysValid c) ∧
    (∀ (pm : PolicyManager) (p : Policy) (c : Condition),
        p.conditions = some c →
        containsEmptyLogical c = true →
        ((addPolicy pm p).2 = none ↔
          pm.resourcesTypes.contains p.resource = true ∧
            allKeysValid c = true)) := by
  refine ⟨validate_eq_keys, ?_⟩
  intro pm p c h1 _
  have hvp : validatePolicy pm p =
      (pm.resourcesTypes.contains p.resource && allKeysValid c) := by
    simp only [validatePolicy, h1, validate_eq_keys c]
  constructor
  · intro hacc
    by_cases hv : validatePolicy pm p = true
    · rw [hvp] at hv
      exact Bool.and_eq_true_iff.mp hv
    · exfalso
      simp [addPolicy, hv] at hacc
  · rintro ⟨hres, hkeys⟩
    have hv : validatePolicy pm p = true := by
      rw [hvp, hres, hkeys]
      rfl
    simp [addPolicy, hv]

/-- C7 (witness): the amended statement applied to a policy whose tree
contains an empty `or` nested below a non-empty `and`, over the universe
`["file"]`. -/
theorem empty_and_accepted_wit : (addPolicy pm7 p7nested).2 = none :=
  (empty_and_accepted.2 pm7 p7nested (Condition.andC [Condition.orC []])
      rfl rfl).mpr ⟨rfl, rfl⟩

/-- C8: `add_policy` is atomic — on a validation failure the manager (and
so the index) is unchanged — and `add_policies` has prefix semantics: when
the policy after a successfully inserted prefix fails validation, the
manager keeps exactly the prefix insertions and neither the failing policy
nor any later one is inserted. -/
theorem add_policy_atomic_prefix :
    (∀ (pm : PolicyManager) (p : Policy) (e : SchemaError),
        (addPolicy pm p).2 = some e → (addPolicy pm p).1 = pm) ∧
    (∀ (pm : PolicyManager) (pre : List Policy) (p : Policy)
        (post : List Policy),
        (addPolicies pm pre).2 = none →
        (addPolicy (addPolicies pm pre).1 p).2.isSome = true →
        addPolicies pm (pre ++ p :: post) =
          ((addPolicies pm pre).1,
            (addPolicy (addPolicies pm pre).1 p).2)) := by
  constructor
  · exact addPolicy_error_state
  · intro pm pre
    induction pre generalizing pm with
    | nil =>
      intro p post _ hfail
      obtain ⟨e, he⟩ := Option.isSome_iff_exists.mp hfail
      have he2 : (addPolicy pm p).2 = some e := he
      have hstate : (addPolicy pm p).1 = pm :=
        addPolicy_error_state pm p e he2
      show addPolicies pm (p :: post) = (pm, (addPolicy pm p).2)
      rw [he2]
      cases hrun : addPolicy pm p with
      | mk pm1 o =>
        have ho : o = some e := by rw [← he2, hrun]
        have hpm1 : pm1 = pm := by rw [← hstate, hrun]
        simp [addPolicies, hrun, ho, hpm1]
    | cons q pre ih =>
      intro p post hok hfail
      cases hq : addPolicy pm q with
      | mk pm1 o =>
        cases o with
        | none =>
          have hstep : addPolicies pm (q :: pre) = addPolicies pm1 pre := by
            simp [addPolicies, hq]
          rw [hstep] at hok hfail
          have hres := ih pm1 p post hok hfail
          calc addPolicies pm ((q :: pre) ++ p :: post)
              = addPolicies pm (q :: (pre ++ p :: post)) := rfl
            _ = addPolicies pm1 (pre ++ p :: post) := by
                simp [addPolicies, hq]
            _ = ((addPolicies pm1 pre).1,
                  (addPolicy (addPolicies pm1 pre).1 p).2) := hres
            _ = ((addPolicies pm (q :: pre)).1,
                  (addPolicy (addPolicies pm (q :: pre)).1 p).2) := by
                rw [hstep]
        | some e =>
          exfalso
          have hbad : addPolicies pm (q :: pre) = (pm1, some e) := by
            simp [addPolicies, hq]
          rw [hbad] at hok
          exact Option.noConfusion hok

/-- C8 (witness): adding `[good, bad, good2]` over the universe `["file"]`
keeps the first insertion, rejects `bad` (whose resource is outside the
universe), and never inserts `good2`. -/
theorem add_policy_atomic_prefix_wit :
    addPolicies pm8 [goodPolicy8, badPolicy8, goodPolicy8b] =
      ((addPolicies pm8 [goodPolicy8]).1,
        (addPolicy (addPolicies pm8 [goodPolicy8]).1 badPolicy8).2) :=
  add_policy_atomic_prefix.2 pm8 [goodPolicy8] badPolicy8 [goodPolicy8b]
    rfl rfl

/-- C9 (counterexample): constructing a `PolicyManager` over the
duplicated universe `["user", "user"]` does not fail: it returns a manager
holding that universe verbatim, and `addPolicy` on it works normally. -/
theorem constructor_total_cex :
    PolicyManager.make ["user", "user"] =
      { resourcesTypes := ["user", "user"], policies := [] } ∧
    (addPolicy (PolicyManager.make ["user", "user"])
        ⟨Action.read, "user", none⟩).2 = none :=
  ⟨rfl, rfl⟩

/-- C9 (amended): the `PolicyManager` constructor never fails at runtime:
for every universe — empty, duplicated, or valid — it returns a manager
storing the universe as given with an empty index (`z.enum` performs no
check of its values array; non-emptiness is only a TypeScript type-level
constraint), and any policy naming a universe member with no conditions is
subsequently accepted. -/
theorem constructor_total :
    (∀ u : List String,
        PolicyManager.make u = { resourcesTypes := u, policies := [] }) ∧
    (∀ (u : List String) (p : Policy),
        u.contains p.resource = true → p.conditions = none →
        (addPolicy (PolicyManager.make u) p).2 = none) := by
  constructor
  · intro u
    rfl
  · intro u p h1 h2
    have hm : p.resource ∈ u := by simpa using h1
    simp [addPolicy, validatePolicy, PolicyManager.make, hm, h2]

/-- C9 (witness): the amended statement applied to the duplicated universe
`["user", "user"]`. -/
theorem constructor_total_wit :
    (addPolicy (PolicyManager.make ["user", "user"])
        ⟨Action.read, "user", none⟩).2 = none :=
  constructor_total.2 ["user", "user"] ⟨Action.read, "user", none⟩ rfl rfl

/-- C10: an empty `and` evaluates to `true` and an empty `or` to `false`
for every subject and resource; the condition schema accepts both empty
lists; and a registered policy whose root is an empty `and` grants access
unconditionally for the matching `(type, action)` key. -/
theorem empty_logical_semantics :
    (∀ (f : Nat) (s r : Resource),
        evaluate (f + 1) s r (Condition.andC []) = some (Except.ok true) ∧
        evaluate (f + 1) s r (Condition.orC []) = some (Except.ok false)) ∧
    validateCondition (Condition.andC []) = true ∧
    validateCondition (Condition.orC []) = true ∧
    addPolicy pm10 p10 =
      ({ resourcesTypes := ["file"], policies := store10 }, none) ∧
    (∀ (f : Nat) (s r : Resource), r.type = "file" →
        isAuthorized (f + 1) store10 s r Action.read =
          some (Except.ok true)) := by
  refine ⟨fun f s r => ⟨rfl, rfl⟩, rfl, rfl, rfl, ?_⟩
  intro f s r h
  have hkey : getPolicyKey r Action.read = "file:read" := by
    simp only [getPolicyKey, h]
    rfl
  simp only [isAuthorized, hkey]
  rfl

/-- C10 (witness): the unconditional grant applied to a concrete subject
and `file` resource. -/
theorem empty_logical_semantics_wit :
    isAuthorized 1 store10 cexSubject cexResource Action.read =
      some (Except.ok true) :=
  empty_logical_semantics.2.2.2.2 0 cexSubject cexResource rfl

end AuthEngine
